import Mathlib

/-!
Shallow embedding of the tool-use orchestration engine of the
anthropic-sdk-tools repository (src/index.ts, src/v2.ts): the invocation
block parser, the result block builder, the buffered turn loop
(AnthropicClient.runWithTools) and the streaming orchestrator
(AnthropicClientV2.stream / invokeFunctions / extractFunctionCalls).
External collaborators (the Anthropic HTTP client, the secondary
parameter-resolution model call, and the zod schema validator) are modelled
as oracles, exactly as the specification scopes them out.
-/

set_option maxRecDepth 100000

namespace AnthropicSdkTools

/-- JavaScript values as they flow through the engine: tool results, errors
and parsed XML nodes.  `undefined` is JavaScript `undefined`. -/
inductive JSVal where
  | undefined : JSVal
  | null : JSVal
  | bool (b : Bool) : JSVal
  | num (n : Int) : JSVal
  | str (s : String) : JSVal
  deriving DecidableEq, Repr

/-- `JSON.stringify(v)` as it is interpolated into the template literals of
the result-block builder (for `undefined` the template renders the string
`undefined`, which is what `${JSON.stringify(undefined)}` produces). -/
def jsonStringify : JSVal → String
  | .undefined => "undefined"
  | .null => "null"
  | .bool b => if b then ("true") else ("false")
  | .num n => toString n
  | .str s => "\x22" ++ s ++ "\x22"

/-- Whitespace as trimmed by JavaScript / fast-xml-parser. -/
def charWS (c : Char) : Bool :=
  c == ' ' || c == '\n' || c == '\t' || c == '\r'

/-- Trim both ends of a character list. -/
def trimChars (l : List Char) : List Char :=
  ((l.dropWhile charWS).reverse.dropWhile charWS).reverse

/-- `String.trim`, implemented over the character list so that it reduces
by structural recursion. -/
def jsTrim (s : String) : String :=
  String.mk (trimChars s.data)

/-- Split a character list on every occurrence of a non-empty separator
(fuel-driven structural recursion; the fuel is always sufficient at the
call site). -/
def splitListGo (sep : List Char) : Nat → List Char → List Char → List (List Char)
  | 0, rest, acc => [acc.reverse ++ rest]
  | fuel + 1, rest, acc =>
    if sep.isPrefixOf rest && !sep.isEmpty then
      acc.reverse :: splitListGo sep fuel (rest.drop sep.length) []
    else
      match rest with
      | [] => [acc.reverse]
      | c :: cs => splitListGo sep fuel cs (c :: acc)

/-- JavaScript `text.split(sep)` for a non-empty separator. -/
def jsSplitOn (text sep : String) : List String :=
  (splitListGo sep.data (text.data.length + 1) text.data []).map String.mk

/-- Interleave a separator between character lists. -/
def intercalateChars (sep : List Char) : List (List Char) → List Char
  | [] => []
  | [x] => x
  | x :: xs => x ++ sep ++ intercalateChars sep xs

/-- `String.intercalate`, over character lists. -/
def interStr (sep : String) (xs : List String) : String :=
  String.mk (intercalateChars sep.data (xs.map String.data))

/-- `s.startsWith p`, over character lists. -/
def strStartsWith (s p : String) : Bool :=
  p.data.isPrefixOf s.data

/-- JavaScript `text.includes(marker)` for a non-empty marker. -/
def includesSub (text marker : String) : Bool :=
  2 ≤ (jsSplitOn text marker).length

/-- Everything after the first occurrence of `marker` in `text`
(`none` when the marker is absent). -/
def afterFirst (marker text : String) : Option String :=
  match jsSplitOn text marker with
  | [] => none
  | [_] => none
  | _ :: rest => some (interStr marker rest)

/-- Everything before the first occurrence of `marker` in `text`
(all of `text` when the marker is absent). -/
def beforeFirst (marker text : String) : String :=
  (jsSplitOn text marker).headD ("")

/-- The text strictly between the first `o` and the next `c` after it. -/
def between (o c text : String) : Option String :=
  (afterFirst o text).map (beforeFirst c)

/-- JavaScript `text.split(marker)[1]` (used by both parsers to isolate the
invocation block).  Defaults to the empty string; every use site has already
checked that the marker is present. -/
def splitSecond (marker text : String) : String :=
  (jsSplitOn text marker).getD 1 ("")

/-- The value tree produced by `fast-xml-parser` (plus `undefined` for the result
of a JavaScript property access that misses). -/
inductive JVal where
  | undefined : JVal
  | str (s : String) : JVal
  | arr (xs : List JVal) : JVal
  | obj (fields : List (String × JVal)) : JVal

/-- JavaScript property access `v[k]`: looking a key up on an object yields
the field or `undefined`; on an array or string (non-numeric key) it yields
`undefined`; on `undefined` itself it throws a `TypeError`. -/
def jGetE (v : JVal) (k : String) : Except String JVal :=
  match v with
  | .undefined => .error ("TypeError: cannot read properties of undefined")
  | .obj fields => .ok ((((fields.find? (fun p => p.1 == k)).map Prod.snd)).getD .undefined)
  | _ => .ok .undefined

/-- `Array.isArray(v)`. -/
def jIsArray : JVal → Bool
  | .arr _ => true
  | _ => false

/-- The elements of an array value (empty for anything else). -/
def jArrElems : JVal → List JVal
  | .arr xs => xs
  | _ => []

/-- A JavaScript value stored into a record field, viewed as an optional
string: `none` models `undefined`.  (In every reachable case the value is a
string or `undefined`.) -/
def jToOptStr : JVal → Option String
  | .str s => some s
  | _ => none

/-- Sequential traversal of parsed elements with JavaScript exception
propagation (the semantics of mapping a throwing callback over an array,
stopping at the first throw). -/
def exceptMapList {α : Type} (f : JVal → Except String α) : List JVal → Except String (List α)
  | [] => .ok []
  | x :: xs =>
    match f x with
    | .error e => .error e
    | .ok c =>
      match exceptMapList f xs with
      | .error e => .error e
      | .ok rest => .ok (c :: rest)

/-- The invocation-block start marker. -/
def fcOpen : String :=
  "<function_calls>"

/-- The invocation-block closing marker (also registered as a stop
sequence). -/
def fcClose : String :=
  "</function_calls>"

/-- The invoke-element bodies of an invocation block: everything between
each `<invoke>` and the following `</invoke>` of the block body, in order.
This models fast-xml-parser tokenizing the (well-formed) block into its
invoke child elements. -/
def parseInvokeElems (inner : String) : List String :=
  ((jsSplitOn inner ("<invoke>")).drop 1).map (beforeFirst ("</invoke>"))

/-- The fast-xml-parser value of one streamed-mode invoke element: an object
with the `tool_name` and `context` text children (trimmed), each present
only if its tag occurs in the element body. -/
def invokeJValV2 (body : String) : JVal :=
  .obj ((match between ("<tool_name>") ("</tool_name>") body with
         | some s => [("tool_name", JVal.str (jsTrim s))]
         | none => []) ++
        (match between ("<context>") ("</context>") body with
         | some s => [("context", JVal.str (jsTrim s))]
         | none => []))

/-- The fast-xml-parser value of `parsed.function_calls` for a well-formed
streamed-mode block body: with no invoke child the element collapses to its
(trimmed) text; with exactly one child, `invoke` maps to that object; with
several, `invoke` maps to an array (the one/many grammar asymmetry of the
parser). -/
def fxpFunctionCallsV2 (inner : String) : JVal :=
  match (parseInvokeElems inner).map invokeJValV2 with
  | [] => .str (jsTrim inner)
  | [x] => .obj [("invoke", x)]
  | xs => .obj [("invoke", .arr xs)]

/-- A streamed-mode invocation record as built by
`AnthropicClientV2.extractFunctionCalls`; `none` fields model JavaScript
`undefined`. -/
structure InvocationRecord where
  tool_name : Option String
  context : Option String
  deriving DecidableEq, Repr

/-- One record from one element of the (dead) `calls.map(...)` branch of
`extractFunctionCalls`: `call.invoke.tool_name` / `call.invoke.context`. -/
def recordOfCall (call : JVal) : Except String InvocationRecord := do
  let inv ← jGetE call ("invoke")
  let tn ← jGetE inv ("tool_name")
  let cx ← jGetE inv ("context")
  .ok { tool_name := jToOptStr tn, context := jToOptStr cx }

/-- `AnthropicClientV2.extractFunctionCalls` (src/v2.ts 227-248): return `[]`
when the start marker is absent; otherwise isolate the text after the first
start marker, re-wrap it in `<function_calls>`..`</function_calls>`, parse
it, and normalize `parsed.function_calls` — via `Array.isArray(calls)`,
which tests the *container* value (never an array for a single wrapped
block) instead of its `invoke` child. -/
def extractFunctionCalls (text : String) : Except String (List InvocationRecord) :=
  if includesSub text fcOpen then
    let seg := splitSecond fcOpen text
    let wrapped := fcOpen ++ "\n" ++ seg ++ "\n" ++ fcClose
    let inner := (between fcOpen fcClose wrapped).getD ("")
    let calls := fxpFunctionCallsV2 inner
    if jIsArray calls then
      exceptMapList recordOfCall (jArrElems calls)
    else
      recordOfCall calls >>= fun r => .ok [r]
  else
    .ok []

/-- A buffered-mode invocation record (`functions` entry) as built by
`AnthropicClient.runWithTools`: the tool name and a flat name-to-string
parameter map; `none` models JavaScript `undefined`. -/
structure NamedCall where
  name : Option String
  parameters : List (String × String)
  deriving DecidableEq, Repr

/-- The fast-xml-parser value of a `<parameters>` element body: one string
field per single-level `<p>v</p>` child (trimmed); with no children the
element collapses to its (trimmed) text. -/
def paramsJVal (inner : String) : JVal :=
  match ((jsSplitOn inner ("<")).drop 1).filterMap (fun seg =>
      if strStartsWith seg ("/") then none
      else match jsSplitOn seg (">") with
        | [] => none
        | [_] => none
        | name :: rest => some (name, JVal.str (jsTrim (interStr (">") rest)))) with
  | [] => .str (jsTrim inner)
  | fields => .obj fields

/-- The fast-xml-parser value of one buffered-mode invoke element. -/
def invokeJValBuffered (body : String) : JVal :=
  .obj ((match between ("<tool_name>") ("</tool_name>") body with
         | some s => [("tool_name", JVal.str (jsTrim s))]
         | none => []) ++
        (match between ("<parameters>") ("</parameters>") body with
         | some s => [("parameters", paramsJVal s)]
         | none => []))

/-- The fast-xml-parser value of `parsed.function_calls` for a well-formed
buffered-mode block body (same one/many asymmetry as the streamed parser). -/
def fxpFunctionCallsBuffered (inner : String) : JVal :=
  match (parseInvokeElems inner).map invokeJValBuffered with
  | [] => .str (jsTrim inner)
  | [x] => .obj [("invoke", x)]
  | xs => .obj [("invoke", .arr xs)]

/-- A parameter value copied into `parameterValues` (all reachable values
are strings). -/
def jValToParamStr : JVal → String
  | .str s => s
  | _ => ""

/-- One `functions` entry from one element of `invokeArray`
(`invoke.invoke.tool_name`, `invoke.invoke.parameters`, then a `for..in`
copy of the parameter fields; `for..in` over a non-object iterates
nothing). -/
def namedCallOfInvoke (iv : JVal) : Except String NamedCall := do
  let inv ← jGetE iv ("invoke")
  let tn ← jGetE inv ("tool_name")
  let ps ← jGetE inv ("parameters")
  let params := match ps with
    | .obj fields => fields.map (fun p => (p.1, jValToParamStr p.2))
    | _ => []
  .ok { name := jToOptStr tn, parameters := params }

/-- The parse step of one iteration of the buffered turn loop
(src/index.ts 418-440): isolate the block after the first start marker,
re-wrap, parse, then `invokeArray = Array.isArray(calls) ? calls : [calls]`
and build one `functions` entry per element of `invokeArray`. -/
def parseBufferedBlock (text : String) : Except String (List NamedCall) :=
  let seg := splitSecond fcOpen text
  let wrapped := fcOpen ++ "\n" ++ seg ++ "\n" ++ fcClose
  let inner := (between fcOpen fcClose wrapped).getD ("")
  let calls := fxpFunctionCallsBuffered inner
  let invokeArray := if jIsArray calls then jArrElems calls else [calls]
  exceptMapList namedCallOfInvoke invokeArray

/-- A conversation message (role plus text content). -/
structure Message where
  role : String
  content : String
  deriving DecidableEq, Repr

/-- One scalar property of a tool's JSON-schema parameter description, as
rendered by the buffered prompt builder (the Schema Translator collaborator
view of the zod schema; the nested `items`/`properties` branches are not
exercised by any claim and are elided for scalar properties). -/
structure ParamInfo where
  name : String
  ptype : String
  description : String
  deriving DecidableEq, Repr

/-- A registered tool: its advertised name and description, plus the schema
properties used by the buffered prompt builder.  The tool function itself
and its zod schema are opaque and modelled by oracles at each call site. -/
structure Tool where
  tool_name : String
  description : String
  props : List ParamInfo := []
  deriving DecidableEq, Repr

/-- `tools.find(tool => tool.anthropic.tool_name === func.tool_name)` where
the searched-for name may be JavaScript `undefined` (`none`). -/
def findTool (tools : List Tool) (name : Option String) : Option Tool :=
  tools.find? (fun t => some t.tool_name == name)

/-- Template interpolation of a possibly-`undefined` string. -/
def optTemplate : Option String → String
  | some s => s
  | none => "undefined"

/-- The outcome of one pass of `AnthropicClientV2.invokeFunction` for one
invocation (the secondary parameter-resolution model call, schema
validation and the tool function are collaborators, so the outcome is an
oracle): a final `{error}` yield or a final `{data}` yield (whose value may
be JavaScript `undefined`).  The interleaved `{}` progress yields carry no
information and are swallowed by `invokeFunctions`. -/
inductive InvokeOutcome where
  | error (e : JSVal)
  | data (v : JSVal)
  deriving DecidableEq, Repr

/-- The protocol-specific stream events emitted by the streaming
orchestrator's tool phase (provider lifecycle events pass through unchanged
before this phase and are not re-modelled). -/
inductive StreamEvent where
  | tool_invoke (tool : Tool)
  | tool_result (tool : Tool) (result : JSVal)
  | tool_error (tool : Tool) (err : JSVal)
  | tool_results (results : List (String × JSVal)) (messages : List Message)
  deriving DecidableEq, Repr

/-- The result-block header. -/
def frHeader : String :=
  "<function_results>\n"

/-- The result-block footer. -/
def frFooter : String :=
  "</function_results>"

/-- One per-tool success fragment of the result block. -/
def resultFragment (toolName : String) (v : JSVal) : String :=
  "<function_result>\n<tool_name>" ++ toolName ++ "</tool_name>\n<result>" ++
    jsonStringify v ++ "</result>\n</function_result>\n"

/-- The streamed-mode accumulator reset on an error outcome
(src/v2.ts 283). -/
def errorResetV2 (e : JSVal) : String :=
  frHeader ++ "<error>\n" ++ jsonStringify e ++ "\n</error>\n"

/-- JavaScript assignment `m[k] = v` on a plain object viewed as an ordered
association list: an existing key keeps its position; a new key is
appended. -/
def upsert (m : List (String × JSVal)) (k : String) (v : JSVal) : List (String × JSVal) :=
  if m.any (fun p => p.1 == k) then
    m.map (fun p => if p.1 == k then (k, v) else p)
  else
    m ++ [(k, v)]

/-- The observable state of the streamed tool phase after the consumer in
`stream` has finished iterating `invokeFunctions`. -/
structure InvokeOut where
  events : List StreamEvent
  results : List (String × JSVal)
  functionResults : String
  messages : List Message
  completed : Bool
  deriving DecidableEq, Repr

/-- The composed semantics of `AnthropicClientV2.invokeFunctions`
(src/v2.ts 250-317) as consumed by the `for await` loop in `stream`
(src/v2.ts 109-123): for each invocation record, look the tool up (a miss
throws `Tool ${func} not found`, interpolating the record object), emit
`tool_invoke`, and run the tool pipeline.  An `{error}` outcome emits
`tool_error`, resets the accumulator to the error fragment and ends the
phase (the consumer breaks on `tool_error`, which returns the suspended
generator, so neither the remaining invocations nor the footer/`tool_results`
tail run).  A defined `{data}` outcome emits `tool_result`, appends a
success fragment and records the result; an `undefined` `{data}` outcome
emits nothing and changes nothing.  When the list is exhausted the footer is
appended, the follow-up user message is synthesized and `tool_results` is
emitted. -/
def invokeLoopGo (tools : List Tool) (exec : String → Option String → InvokeOutcome) :
    List InvocationRecord → List StreamEvent → List (String × JSVal) → String →
    Except String InvokeOut
  | [], events, results, fr =>
    let fr := fr ++ frFooter
    let msgs := [{ role := "user", content := fr : Message }]
    .ok { events := events ++ [.tool_results results msgs], results := results,
          functionResults := fr, messages := msgs, completed := true }
  | func :: rest, events, results, fr =>
    match findTool tools func.tool_name with
    | none => .error ("Tool [object Object] not found")
    | some tool =>
      match exec tool.tool_name func.context with
      | .error e =>
        .ok { events := events ++ [.tool_invoke tool, .tool_error tool e],
              results := results, functionResults := errorResetV2 e,
              messages := [], completed := false }
      | .data v =>
        if v = .undefined then
          invokeLoopGo tools exec rest (events ++ [.tool_invoke tool]) results fr
        else
          invokeLoopGo tools exec rest
            (events ++ [.tool_invoke tool, .tool_result tool v])
            (upsert results tool.tool_name v)
            (fr ++ resultFragment tool.tool_name v)

/-- The streamed tool phase started on the parsed invocation records. -/
def invokeLoop (tools : List Tool) (exec : String → Option String → InvokeOutcome)
    (funcs : List InvocationRecord) : Except String InvokeOut :=
  invokeLoopGo tools exec funcs [] [] frHeader

/-- The post-stream phase of `AnthropicClientV2.stream` (src/v2.ts 99-127):
once the provider stream has completed with turn text `turnText`, if the
text contains the start marker, parse the invocation records; if any were
parsed, run the tool phase and then open the single continuation request —
`sendFinalResponse(body, body.messages, options)` — whose transcript is the
*original* `body.messages` (the synthesized follow-up captured in `result`
is never used; `updateMessages` is commented out).  Returns the emitted
tool-phase events and, when the continuation was issued, the transcript it
was sent with. -/
def streamTurn (tools : List Tool) (exec : String → Option String → InvokeOutcome)
    (messages : List Message) (turnText : String) :
    Except String (List StreamEvent × Option (List Message)) :=
  if includesSub turnText fcOpen then do
    let calls ← extractFunctionCalls turnText
    if calls.length > 0 then do
      let out ← invokeLoop tools exec calls
      .ok (out.events, some messages)
    else
      .ok ([], none)
  else
    .ok ([], none)

/-- The observable outcome of one queued buffered-mode invocation
(zod `safeParse` and the tool function are collaborator oracles):
`invalid` is a schema-validation failure (the function is *not* called),
`execError` is a rejection thrown by the called function, `ok` is a
resolved value. -/
inductive RoundOutcome where
  | invalid : RoundOutcome
  | execError (e : JSVal) : RoundOutcome
  | ok (v : JSVal) : RoundOutcome
  deriving DecidableEq, Repr

/-- The buffered accumulator reset on a validation failure
(src/index.ts 460). -/
def errorResetInvalid : String :=
  frHeader ++ "<error>\nInvalid parameters passed to the function\n</error>\n"

/-- The buffered accumulator reset on an execution error
(src/index.ts 472). -/
def errorResetExec (e : JSVal) : String :=
  frHeader ++ "<error>\n" ++ jsonStringify e ++ "\n</error>\n"

/-- One round of the buffered executor (src/index.ts 442-477): walk the
accumulated `functions` queue; a registry miss throws
`Tool ${func.name} not found`; a validation failure resets the accumulator
to the fixed error fragment and breaks (without calling the function); a
thrown execution error resets it to the serialized error and breaks (after
the call); a success appends a result fragment.  After the walk the footer
is appended.  Returns the serialized block together with the list of
invocations whose tool function was actually called, in call order. -/
def runRoundGo (tools : List Tool) (behave : NamedCall → RoundOutcome) :
    List NamedCall → String → List NamedCall → Except String (String × List NamedCall)
  | [], fr, executed => .ok (fr ++ frFooter, executed)
  | f :: rest, fr, executed =>
    match findTool tools f.name with
    | none => .error ("Tool (" ++ optTemplate f.name ++ ") not found")
    | some _ =>
      match behave f with
      | .invalid => .ok (errorResetInvalid ++ frFooter, executed)
      | .execError e => .ok (errorResetExec e ++ frFooter, executed ++ [f])
      | .ok v =>
        runRoundGo tools behave rest
          (fr ++ resultFragment (optTemplate f.name) v) (executed ++ [f])

/-- One buffered round started on the accumulated `functions` queue. -/
def runRound (tools : List Tool) (behave : NamedCall → RoundOutcome)
    (funcs : List NamedCall) : Except String (String × List NamedCall) :=
  runRoundGo tools behave funcs frHeader []

/-- The streamed-mode tool-use framing preamble
(`AnthropicClientV2.buildSystemMessage`, src/v2.ts 150-167), ending with the
opening `<tools>` tag. -/
def toolsPreambleV2 : String :=
  "In this environment you have access to a set of tools you can use to answer the user's questions.\nYou will be given the name and description of each tool, and you just need to call the tool by name. Another model will handle calling the tool with the correct parameters. You MUST NOT write any parameters yourself.\n\nYou may call one or more tools like this, the tools will be called in the order they are listed, but the result of each tool will NOT be passed to the next tool:\n<function_calls>\n<invoke>\n<tool_name>$TOOL_NAME</tool_name>\n<context>$ALL_NECESSARY_CONTEXT_TO_SEND_TO_THE_OTHER_MODEL</context>\n</invoke>\n<invoke>\n<tool_name>$TOOL_NAME</tool_name>\n<context>$ALL_NECESSARY_CONTEXT_TO_SEND_TO_THE_OTHER_MODEL</context>\n</invoke>\n...\n</function_calls>\n\nHere are the tools available:\n<tools>\n"

/-- One streamed-mode tool descriptor block (name and description only). -/
def toolDescriptorV2 (t : Tool) : String :=
  "<tool_description>\n<name>" ++ t.tool_name ++ "</name>\n<description>" ++
    t.description ++ "</description>\n</tool_description>\n"

/-- `AnthropicClientV2.buildSystemMessage` (src/v2.ts 146-180): the framing
preamble, the descriptor blocks and the closing `</tools>` tag when tools
are present, then the caller's system text (empty-string default). -/
def buildSystemMessage (tools : List Tool) (systemMessage : Option String) : String :=
  (if tools.isEmpty then ("")
   else toolsPreambleV2 ++ String.join (tools.map toolDescriptorV2) ++ "</tools>\n") ++
    systemMessage.getD ("")

/-- The streamed-mode stop-sequence construction (src/v2.ts 62): with tools,
the caller's list extended with the closing marker; with no tools, the
literal empty list. -/
def stopSequencesV2 (tools : List Tool) (stop : Option (List String)) : List String :=
  if tools.isEmpty then [] else stop.getD [] ++ [fcClose]

/-- The buffered-mode tool-use framing preamble
(src/index.ts 321-335), ending with the opening `<tools>` tag. -/
def toolsPreambleBuffered : String :=
  "In this environment you have access to a set of tools you can use to answer the user's question.\n\nYou may call them like this:\n<function_calls>\n<invoke>\n<tool_name>$TOOL_NAME</tool_name>\n<parameters>\n<$PARAMETER_NAME>$PARAMETER_VALUE</$PARAMETER_NAME>\n...\n</parameters>\n</invoke>\n</function_calls>\n\nHere are the tools available:\n<tools>\n"

/-- One parameter block of a buffered-mode tool descriptor. -/
def paramBlock (p : ParamInfo) : String :=
  "<parameter>\n<name>" ++ p.name ++ "</name>\n<type>" ++ p.ptype ++
    "</type>\n<description>" ++ p.description ++ "</description>\n</parameter>\n"

/-- One buffered-mode tool descriptor block (src/index.ts 340-370). -/
def toolDescriptorBuffered (t : Tool) : String :=
  "<tool_description>\n<name>" ++ t.tool_name ++ "</name>\n<description>" ++
    t.description ++ "</description>\n<parameters>\n" ++
    String.join (t.props.map paramBlock) ++ "</parameters>\n</tool_description>\n"

/-- The buffered-mode system prompt construction (src/index.ts 319-377):
preamble when tools are present, the descriptor loop, the closing `</tools>`
tag when tools are present, then the caller's system text. -/
def buildSystemBuffered (tools : List Tool) (systemMessage : Option String) : String :=
  (if tools.isEmpty then ("") else toolsPreambleBuffered) ++
    String.join (tools.map toolDescriptorBuffered) ++
    (if tools.isEmpty then ("") else ("</tools>\n")) ++
    systemMessage.getD ("")

/-- The buffered-mode stop-sequence mutation (src/index.ts 372-375): with
tools, `body.stop_sequences` is replaced by the caller's list extended with
the closing marker; with no tools it is left untouched (possibly absent). -/
def stopSequencesBuffered (tools : List Tool) (stop : Option (List String)) :
    Option (List String) :=
  if tools.isEmpty then stop else some (stop.getD [] ++ [fcClose])

/-- The usage-error message thrown on re-iteration of a consumed stream. -/
def streamConsumedError : String :=
  "Cannot iterate over a consumed stream, use `.tee()` to split the stream."

/-- The single-consumer guard of the stream returned by
`AnthropicClientV2.stream` (src/v2.ts 84-89): iterating checks the
`consumed` flag before touching the underlying provider stream — a set flag
throws the usage error without consuming anything, otherwise the flag is
set and the given provider events are delivered. -/
def iterateStream (consumed : Bool) (events : List StreamEvent) :
    Except String (List StreamEvent) :=
  if consumed then .error streamConsumedError else .ok events

/-- The observable final state of a buffered `runWithTools` call:
the transcript, the accumulated `functions` queue, the per-round list of
invocations whose tool function was called (in call order), and the final
assistant text. -/
structure LoopOut where
  messages : List Message
  functions : List NamedCall
  trace : List (List NamedCall)
  finalText : String
  deriving DecidableEq, Repr

/-- The buffered turn loop of `AnthropicClient.runWithTools`
(src/index.ts 411-527), entered after the first assistant reply was
appended to the transcript.  `replies` are the texts of the provider's
subsequent replies (the provider is a collaborator oracle; an exhausted
list models the empty-content reply that triggers the early return), and
`behave k` gives the validation/execution outcomes of round `k`.  While the
current text contains the start marker: parse the block, push the records
onto the *never-cleared* `functions` queue, run one round over the whole
queue, append the follow-up messages, and continue with the next reply.
The `functions.length > 0` else-branch of the source re-enters the loop
without consuming a reply (an infinite loop); it is unreachable because the
parse step always yields exactly one record
(`parseBufferedBlock_singleton`), and is modelled as an error. -/
def turnLoopGo (parse : String → Except String (List NamedCall))
    (round : Nat → List NamedCall → Except String (String × List NamedCall)) :
    List String → String → List NamedCall → Bool → List Message → Nat →
    List (List NamedCall) → Except String LoopOut
  | replies, text, functions, first, messages, k, trace =>
    if includesSub text fcOpen then
      match parse text with
      | .error e => .error e
      | .ok parsed =>
        if (functions ++ parsed).isEmpty then
          .error ("unreachable: loop re-entered with an empty invocation queue")
        else
          match round k (functions ++ parsed) with
          | .error e => .error e
          | .ok (block, executed) =>
            match replies with
            | [] =>
              .ok { messages := messages ++
                      (if first then []
                       else [{ role := "assistant", content := text : Message }]) ++
                      [{ role := "user", content := block : Message }],
                    functions := functions ++ parsed,
                    trace := trace ++ [executed], finalText := "" }
            | t :: rest =>
              turnLoopGo parse round rest t (functions ++ parsed) false
                (messages ++
                  (if first then []
                   else [{ role := "assistant", content := text : Message }]) ++
                  [{ role := "user", content := block : Message }])
                (k + 1) (trace ++ [executed])
    else
      .ok { messages := messages ++
              (if first then []
               else [{ role := "assistant", content := text : Message }]),
            functions := functions, trace := trace, finalText := text }

/-- A buffered `runWithTools` call after prompt construction: the first
reply is appended to the transcript as the assistant turn and the loop is
entered.  An empty reply list models a first response with no text content
(early return). -/
def runWithToolsModel (tools : List Tool) (behave : Nat → NamedCall → RoundOutcome)
    (initialMessages : List Message) : List String → Except String LoopOut
  | [] => .ok { messages := initialMessages, functions := [], trace := [], finalText := "" }
  | r0 :: rest =>
    turnLoopGo parseBufferedBlock (fun k funcs => runRound tools (behave k) funcs)
      rest r0 [] true
      (initialMessages ++ [{ role := "assistant", content := r0 }]) 0 []

/-- The per-round parses performed by the buffered loop: the records of the
current text's block, then those of the following replies, for as long as
the loop keeps finding start markers.  (Defined for stating theorems about
the loop's trace; mirrors the loop's control flow.) -/
def parsedSeq (replies : List String) (text : String) : List (List NamedCall) :=
  if includesSub text fcOpen then
    (match parseBufferedBlock text with
     | .ok l => l
     | .error _ => []) ::
    (match replies with
     | [] => []
     | t :: rest => parsedSeq rest t)
  else []

/-- The number of `tool_invoke` events in an event list. -/
def countInvokes (es : List StreamEvent) : Nat :=
  (es.filter (fun e => match e with | .tool_invoke _ => true | _ => false)).length

/-- The events of a streamed tool phase (empty when the phase threw). -/
def invokeEventsOf : Except String InvokeOut → List StreamEvent
  | .ok o => o.events
  | .error _ => []

/-- The tool-phase events of a streamed turn (empty when the turn threw). -/
def toolPhaseEventsOf : Except String (List StreamEvent × Option (List Message)) → List StreamEvent
  | .ok p => p.1
  | .error _ => []

/-- The transcript a streamed turn sent with its continuation request
(`none` when no continuation was issued or the turn threw). -/
def contMessagesOf : Except String (List StreamEvent × Option (List Message)) → Option (List Message)
  | .ok p => p.2
  | .error _ => none

/-- The per-round executed-invocations trace of a buffered call (empty when
the call threw). -/
def traceOf : Except String LoopOut → List (List NamedCall)
  | .ok o => o.trace
  | .error _ => []

/-- Decidable form of the statement that an invocation names a registered
tool and its pipeline resolves to a defined value (the hypothesis of the
amended C1). -/
def resolvesDefinedB (tools : List Tool) (exec : String → Option String → InvokeOutcome)
    (r : InvocationRecord) : Bool :=
  match findTool tools r.tool_name with
  | some t =>
    match exec t.tool_name r.context with
    | .data v => v != .undefined
    | .error _ => false
  | none => false

/-- The event sequence the streamed tool phase emits when every invocation
resolves to a defined value: per record, `tool_invoke` immediately followed
by its `tool_result` (truncated at a lookup miss or error, which the
hypothesis of the amended C1 excludes). -/
def idealEvents (tools : List Tool) (exec : String → Option String → InvokeOutcome) :
    List InvocationRecord → List StreamEvent
  | [] => []
  | r :: rest =>
    match findTool tools r.tool_name with
    | none => []
    | some t =>
      match exec t.tool_name r.context with
      | .data v => .tool_invoke t :: .tool_result t v :: idealEvents tools exec rest
      | .error _ => []

/-- Fixture: a first registered tool. -/
def toolAlpha : Tool :=
  { tool_name := "alpha", description := "does a" }

/-- Fixture: a second registered tool. -/
def toolBeta : Tool :=
  { tool_name := "beta", description := "does b" }

/-- Fixture: an invocation of `toolAlpha`. -/
def recAlpha : InvocationRecord :=
  { tool_name := some ("alpha"), context := some ("c1") }

/-- Fixture: an invocation of `toolBeta`. -/
def recBeta : InvocationRecord :=
  { tool_name := some ("beta"), context := some ("c2") }

/-- Fixture: an invocation naming no registered tool. -/
def recGamma : InvocationRecord :=
  { tool_name := some ("gamma"), context := some ("c3") }

/-- Fixture: the pipeline fails on `alpha` and succeeds elsewhere. -/
def execFailAlpha : String → Option String → InvokeOutcome := fun n _ =>
  if n == "alpha" then .error (.str ("boom")) else .data (.str ("fine"))

/-- Fixture: the pipeline succeeds everywhere with the tool's name. -/
def execEcho : String → Option String → InvokeOutcome := fun n _ =>
  .data (.str n)

/-- Fixture: a buffered invocation of `toolAlpha` with no parameters. -/
def callAlpha : NamedCall :=
  { name := some ("alpha"), parameters := [] }

/-- Fixture: a buffered invocation of `toolBeta`. -/
def callBeta : NamedCall :=
  { name := some ("beta"), parameters := [] }

/-- Fixture: a buffered invocation naming no registered tool. -/
def callGamma : NamedCall :=
  { name := some ("gamma"), parameters := [] }

/-- Fixture: a streamed turn text with a single invoke element. -/
def oneInvokeTurnText : String :=
  "Sure.<function_calls>\n<invoke>\n<tool_name>alpha</tool_name>\n<context>c1</context>\n</invoke>"

/-- Fixture: a streamed turn text with two invoke elements. -/
def twoInvokeTurnText : String :=
  "Sure.<function_calls>\n<invoke>\n<tool_name>alpha</tool_name>\n<context>c1</context>\n</invoke>\n<invoke>\n<tool_name>beta</tool_name>\n<context>c2</context>\n</invoke>"

/-- Fixture: a buffered reply text whose block invokes the named tool with
no parameters. -/
def bufferedReply (n : String) : String :=
  "x<function_calls>\n<invoke>\n<tool_name>" ++ n ++
    "</tool_name>\n<parameters>\n</parameters>\n</invoke>"

/-- Fixture: round-indexed behaviour that succeeds everywhere except on
`alpha` in round 2, where the tool function throws. -/
def behaveFailAlphaRound2 : Nat → NamedCall → RoundOutcome := fun k f =>
  if k == 2 && f.name == some ("alpha") then .execError (.str ("boom"))
  else .ok (.str ("r"))

/-- Fixture: every buffered invocation validates and succeeds. -/
def behaveAllOk : NamedCall → RoundOutcome := fun _ =>
  .ok (.str ("r"))

/-- Fixture: validation/execution behaviour failing only on `beta`. -/
def behaveFailBeta : NamedCall → RoundOutcome := fun f =>
  if f.name == some ("beta") then .execError (.str ("bad")) else .ok (.str ("r"))

/-- Fixture: round-indexed behaviour where everything succeeds. -/
def behaveAllOkRounds : Nat → NamedCall → RoundOutcome := fun _ _ =>
  .ok (.str ("r"))

/-- C9: for every assistant text with no invocation start marker, the parser
returns an empty invocation list, and the streamed turn treats it as a plain
conversational reply: no tool phase runs, no result block is built and no
continuation request is issued. -/
theorem no_marker_is_noop (text : String) (tools : List Tool)
    (exec : String → Option String → InvokeOutcome) (msgs : List Message)
    (h : includesSub text fcOpen = false) :
    extractFunctionCalls text = .ok [] ∧
    streamTurn tools exec msgs text = .ok ([], none) := by
  constructor
  · unfold extractFunctionCalls
    simp [h]
  · unfold streamTurn
    simp [h]

/-- Witness for C9 at a concrete marker-free text. -/
theorem no_marker_is_noop_witness :
    extractFunctionCalls ("Hello there!") = .ok [] ∧
    streamTurn [toolAlpha] execEcho [] ("Hello there!") = .ok ([], none) :=
  no_marker_is_noop ("Hello there!") [toolAlpha] execEcho [] (by decide)

/-- C8: the stream returned by the streaming orchestrator is
single-consumer: with the `consumed` flag clear the iteration proceeds and
delivers the events, and with the flag set (as the first iteration leaves
it) the same instance throws the usage error before touching the underlying
provider stream — for every possible provider event list alike. -/
theorem stream_single_consumer (events : List StreamEvent) :
    iterateStream false events = .ok events ∧
    iterateStream true events = .error streamConsumedError :=
  ⟨rfl, rfl⟩

/-- Witness for C8 at a concrete event list. -/
theorem stream_single_consumer_witness :
    iterateStream false [.tool_invoke toolAlpha] = .ok [.tool_invoke toolAlpha] ∧
    iterateStream true [.tool_invoke toolAlpha] = .error streamConsumedError :=
  stream_single_consumer [.tool_invoke toolAlpha]

/-- C7: with an empty tool sequence both clients leave the system prompt
exactly the caller's system text and add nothing to the stop-sequence list
(the buffered client leaves the list untouched; the streamed client sends
an empty list, which in particular extends nothing); with a non-empty tool
sequence both produce the framing preamble, one descriptor block per tool
and the caller's system text last, and append the closing marker to the
caller's stop-sequence list. -/
theorem system_prompt_and_stop_sequences (tools : List Tool)
    (sys : Option String) (stop : Option (List String)) :
    (tools = [] →
      buildSystemMessage tools sys = sys.getD ("") ∧
      buildSystemBuffered tools sys = sys.getD ("") ∧
      stopSequencesBuffered tools stop = stop ∧
      stopSequencesV2 tools stop = [] ∧
      (∀ s ∈ stopSequencesV2 tools stop, s ∈ stop.getD [])) ∧
    (tools ≠ [] →
      buildSystemMessage tools sys =
        toolsPreambleV2 ++ String.join (tools.map toolDescriptorV2) ++
          "</tools>\n" ++ sys.getD ("") ∧
      buildSystemBuffered tools sys =
        toolsPreambleBuffered ++ String.join (tools.map toolDescriptorBuffered) ++
          "</tools>\n" ++ sys.getD ("") ∧
      stopSequencesV2 tools stop = stop.getD [] ++ [fcClose] ∧
      stopSequencesBuffered tools stop = some (stop.getD [] ++ [fcClose])) := by
  constructor
  · intro h
    subst h
    refine ⟨rfl, rfl, rfl, rfl, ?_⟩
    intro s hs
    simp [stopSequencesV2] at hs
  · intro h
    match tools, h with
    | t :: ts, _ => exact ⟨rfl, rfl, rfl, rfl⟩

/-- Witness for C7 at an empty and at a one-tool registry. -/
theorem system_prompt_and_stop_sequences_witness :
    buildSystemMessage [] (some ("SYS")) = "SYS" ∧
    stopSequencesBuffered [] (some ["a"]) = some ["a"] ∧
    buildSystemMessage [toolAlpha] (some ("SYS")) =
      toolsPreambleV2 ++ String.join [toolDescriptorV2 toolAlpha] ++
        "</tools>\n" ++ "SYS" ∧
    stopSequencesV2 [toolAlpha] (some ["a"]) = ["a"] ++ [fcClose] := by
  have h1 := (system_prompt_and_stop_sequences [] (some ("SYS")) (some ["a"])).1 rfl
  have h2 := (system_prompt_and_stop_sequences [toolAlpha] (some ("SYS"))
    (some ["a"])).2 (by simp)
  exact ⟨h1.1, h1.2.2.1, h2.1, h2.2.2.1⟩

/-- C2 (code bug): the invocation block parser does not normalize the
one/many grammar shapes — `Array.isArray` is applied to the parsed
container instead of its `invoke` child, so a block with two invoke
elements yields a *single* record whose fields are `undefined`, while a
block with exactly one invoke element parses correctly. -/
theorem parser_collapses_multi_invoke :
    extractFunctionCalls twoInvokeTurnText =
      .ok [{ tool_name := none, context := none }] ∧
    extractFunctionCalls oneInvokeTurnText =
      .ok [{ tool_name := some ("alpha"), context := some ("c1") }] := by
  exact ⟨rfl, rfl⟩

/-- C4 (code bug): after a successful tool run the streamed turn issues its
continuation request with the *original* transcript — the synthesized
follow-up user message carrying the result block is absent (no message of
the continuation transcript contains a result block at all), even though
the tool's `tool_result` event was emitted. -/
theorem continuation_drops_tool_results :
    contMessagesOf (streamTurn [toolAlpha] execEcho
        [{ role := "user", content := "hi" }] oneInvokeTurnText) =
      some [{ role := "user", content := "hi" }] ∧
    StreamEvent.tool_result toolAlpha (.str ("alpha")) ∈
      toolPhaseEventsOf (streamTurn [toolAlpha] execEcho
        [{ role := "user", content := "hi" }] oneInvokeTurnText) ∧
    (∀ m ∈ (contMessagesOf (streamTurn [toolAlpha] execEcho
        [{ role := "user", content := "hi" }] oneInvokeTurnText)).getD [],
      includesSub m.content frHeader = false) := by
  refine ⟨rfl, ?_, ?_⟩
  · decide
  · decide

/-- C1 counterexample: a streamed round with two parsed invocation records
whose first tool errors emits exactly one `tool_invoke` (then the
`tool_error` ends the phase), so the emitted `tool_invoke` count differs
from the number of parsed records. -/
theorem invoke_count_counterexample :
    invokeEventsOf (invokeLoop [toolAlpha, toolBeta] execFailAlpha
        [recAlpha, recBeta]) =
      [.tool_invoke toolAlpha, .tool_error toolAlpha (.str ("boom"))] ∧
    countInvokes (invokeEventsOf (invokeLoop [toolAlpha, toolBeta] execFailAlpha
        [recAlpha, recBeta])) ≠
      ([recAlpha, recBeta] : List InvocationRecord).length := by
  exact ⟨rfl, by decide⟩

/-- C10: when a tool's function resolves with `undefined`, the streamed tool
phase emits only the `tool_invoke` for it — no `tool_result`, no
`tool_error`, no results-map entry and no result-block fragment — and then
continues with the remaining invocations from an otherwise unchanged
state. -/
theorem undefined_result_is_skipped (tools : List Tool)
    (exec : String → Option String → InvokeOutcome) (r : InvocationRecord)
    (rest : List InvocationRecord) (events : List StreamEvent)
    (results : List (String × JSVal)) (fr : String) (t : Tool)
    (hf : findTool tools r.tool_name = some t)
    (hu : exec t.tool_name r.context = .data .undefined) :
    invokeLoopGo tools exec (r :: rest) events results fr =
      invokeLoopGo tools exec rest (events ++ [.tool_invoke t]) results fr := by
  rw [invokeLoopGo, hf]
  simp [hu]

/-- Witness for C10 at a concrete invocation. -/
theorem undefined_result_is_skipped_witness :
    invokeLoopGo [toolAlpha] (fun _ _ => .data .undefined) [recAlpha] [] [] frHeader =
      invokeLoopGo [toolAlpha] (fun _ _ => .data .undefined) []
        [.tool_invoke toolAlpha] [] frHeader :=
  undefined_result_is_skipped [toolAlpha] (fun _ _ => .data .undefined) recAlpha
    [] [] [] frHeader toolAlpha (by decide) rfl

/-- Helper: the streamed tool phase propagates a lookup miss as a thrown
error, past any prefix of defined-success invocations. -/
theorem invokeLoopGo_notfound (tools : List Tool)
    (exec : String → Option String → InvokeOutcome) (r : InvocationRecord)
    (post : List InvocationRecord) (hr : findTool tools r.tool_name = none) :
    ∀ (pre : List InvocationRecord) (events : List StreamEvent)
      (results : List (String × JSVal)) (fr : String),
      (∀ p ∈ pre, ∃ t, findTool tools p.tool_name = some t ∧
        ∃ v, exec t.tool_name p.context = .data v) →
      invokeLoopGo tools exec (pre ++ r :: post) events results fr =
        .error ("Tool [object Object] not found") := by
  intro pre
  induction pre with
  | nil =>
    intro events results fr _
    rw [List.nil_append, invokeLoopGo, hr]
  | cons p ps ih =>
    intro events results fr h
    obtain ⟨t, ht, v, hv⟩ := h p (by simp)
    have h2 : ∀ q ∈ ps, ∃ t2, findTool tools q.tool_name = some t2 ∧
        ∃ w, exec t2.tool_name q.context = .data w :=
      fun q hq => h q (by simp [hq])
    rw [List.cons_append, invokeLoopGo, ht]
    simp only [hv]
    split
    · exact ih _ _ _ h2
    · exact ih _ _ _ h2

/-- Helper: the buffered round executor propagates a lookup miss as a
thrown error, past any prefix of found-and-successful invocations. -/
theorem runRoundGo_notfound (tools : List Tool) (behave : NamedCall → RoundOutcome)
    (f : NamedCall) (bpost : List NamedCall)
    (hfb : findTool tools f.name = none) :
    ∀ (bpre : List NamedCall) (fr : String) (ex : List NamedCall),
      (∀ p ∈ bpre, (findTool tools p.name).isSome ∧ ∃ v, behave p = .ok v) →
      runRoundGo tools behave (bpre ++ f :: bpost) fr ex =
        .error ("Tool (" ++ optTemplate f.name ++ ") not found") := by
  intro bpre
  induction bpre with
  | nil =>
    intro fr ex _
    rw [List.nil_append, runRoundGo, hfb]
  | cons p ps ih =>
    intro fr ex h
    obtain ⟨hsome, v, hv⟩ := h p (by simp)
    obtain ⟨t, ht⟩ := Option.isSome_iff_exists.mp hsome
    rw [List.cons_append, runRoundGo, ht]
    simp only [hv]
    exact ih _ _ (fun q hq => h q (by simp [hq]))

/-- C6: an invocation naming a tool absent from the registry makes the call
throw immediately when that invocation is reached — in both the streamed
tool phase and the buffered round — so the call aborts with an error value
and the failure is not encoded as a per-tool outcome in any result
block. -/
theorem tool_not_found_fatal (tools : List Tool)
    (exec : String → Option String → InvokeOutcome)
    (behave : NamedCall → RoundOutcome)
    (pre : List InvocationRecord) (r : InvocationRecord) (post : List InvocationRecord)
    (bpre : List NamedCall) (f : NamedCall) (bpost : List NamedCall)
    (hpre : ∀ p ∈ pre, ∃ t, findTool tools p.tool_name = some t ∧
      ∃ v, exec t.tool_name p.context = .data v)
    (hr : findTool tools r.tool_name = none)
    (hbpre : ∀ p ∈ bpre, (findTool tools p.name).isSome ∧ ∃ v, behave p = .ok v)
    (hfb : findTool tools f.name = none) :
    invokeLoop tools exec (pre ++ r :: post) =
      .error ("Tool [object Object] not found") ∧
    runRound tools behave (bpre ++ f :: bpost) =
      .error ("Tool (" ++ optTemplate f.name ++ ") not found") :=
  ⟨invokeLoopGo_notfound tools exec r post hr pre [] [] frHeader hpre,
   runRoundGo_notfound tools behave f bpost hfb bpre frHeader [] hbpre⟩

/-- Witness for C6: one successful invocation followed by an invocation of
the unregistered `gamma`, in both modes. -/
theorem tool_not_found_fatal_witness :
    invokeLoop [toolAlpha, toolBeta] execEcho ([recAlpha] ++ recGamma :: []) =
      .error ("Tool [object Object] not found") ∧
    runRound [toolAlpha, toolBeta] behaveAllOk ([callAlpha] ++ callGamma :: []) =
      .error ("Tool (" ++ optTemplate callGamma.name ++ ") not found") :=
  tool_not_found_fatal [toolAlpha, toolBeta] execEcho behaveAllOk
    [recAlpha] recGamma [] [callAlpha] callGamma []
    (fun p hp => by
      have hp2 : p = recAlpha := by simpa using hp
      subst hp2
      exact ⟨toolAlpha, by decide, ⟨.str ("alpha"), rfl⟩⟩)
    (by decide)
    (fun p hp => by
      have hp2 : p = callAlpha := by simpa using hp
      subst hp2
      exact ⟨by decide, ⟨.str ("r"), rfl⟩⟩)
    (by decide)

/-- Helper: a prefix of found-and-successful invocations only moves the
buffered round executor's accumulators: the remaining queue runs from some
accumulated block with the prefix recorded as executed. -/
theorem runRoundGo_ok_prefix (tools : List Tool) (behave : NamedCall → RoundOutcome) :
    ∀ (pre l : List NamedCall) (fr : String) (ex : List NamedCall),
      (∀ p ∈ pre, (findTool tools p.name).isSome ∧ ∃ v, behave p = .ok v) →
      ∃ fr2, runRoundGo tools behave (pre ++ l) fr ex =
        runRoundGo tools behave l fr2 (ex ++ pre) := by
  intro pre
  induction pre with
  | nil =>
    intro l fr ex _
    exact ⟨fr, by simp⟩
  | cons p ps ih =>
    intro l fr ex h
    obtain ⟨hsome, v, hv⟩ := h p (by simp)
    obtain ⟨t, ht⟩ := Option.isSome_iff_exists.mp hsome
    obtain ⟨fr2, h2⟩ := ih l (fr ++ resultFragment (optTemplate p.name) v) (ex ++ [p])
      (fun q hq => h q (by simp [hq]))
    refine ⟨fr2, ?_⟩
    rw [List.cons_append, runRoundGo, ht]
    simp only [hv]
    rw [h2]
    simp

/-- C3: the first error outcome of a buffered round — a validation failure
or a thrown execution error — resets the result-block accumulator so the
serialized block holds only that error fragment (the success fragments of
the tools that completed earlier in the round are discarded), and no
later-queued invocation of the round is executed: the executed list is
exactly the successful prefix, plus the failing call itself only when its
function was actually entered (execution error). -/
theorem error_resets_result_block (tools : List Tool)
    (behave : NamedCall → RoundOutcome) (pre : List NamedCall) (f : NamedCall)
    (post : List NamedCall)
    (hpre : ∀ p ∈ pre, (findTool tools p.name).isSome ∧ ∃ v, behave p = .ok v)
    (hf : (findTool tools f.name).isSome) :
    (behave f = .invalid →
      runRound tools behave (pre ++ f :: post) =
        .ok (errorResetInvalid ++ frFooter, pre)) ∧
    (∀ e, behave f = .execError e →
      runRound tools behave (pre ++ f :: post) =
        .ok (errorResetExec e ++ frFooter, pre ++ [f])) := by
  obtain ⟨t, ht⟩ := Option.isSome_iff_exists.mp hf
  obtain ⟨fr2, h2⟩ := runRoundGo_ok_prefix tools behave pre (f :: post) frHeader [] hpre
  constructor
  · intro hb
    unfold runRound
    rw [h2, runRoundGo, ht]
    simp only [hb]
    simp
  · intro e hb
    unfold runRound
    rw [h2, runRoundGo, ht]
    simp only [hb]
    simp

/-- Witness for C3: a successful `alpha` followed by a failing `beta`; the
block is the error-only reset and only `alpha` and `beta` ran. -/
theorem error_resets_result_block_witness :
    runRound [toolAlpha, toolBeta] behaveFailBeta ([callAlpha] ++ callBeta :: []) =
      .ok (errorResetExec (.str ("bad")) ++ frFooter, [callAlpha] ++ [callBeta]) :=
  (error_resets_result_block [toolAlpha, toolBeta] behaveFailBeta
    [callAlpha] callBeta []
    (fun p hp => by
      have hp2 : p = callAlpha := by simpa using hp
      subst hp2
      exact ⟨by decide, ⟨.str ("r"), rfl⟩⟩)
    (by decide)).2 (.str ("bad")) rfl

/-- Helper: `countInvokes` distributes over append. -/
theorem countInvokes_append (a b : List StreamEvent) :
    countInvokes (a ++ b) = countInvokes a + countInvokes b := by
  simp [countInvokes, List.filter_append]

/-- Helper: a `tool_invoke` head adds one to the invoke count. -/
theorem countInvokes_cons_invoke (t : Tool) (l : List StreamEvent) :
    countInvokes (.tool_invoke t :: l) = countInvokes l + 1 := by
  simp [countInvokes, List.filter]

/-- Helper: a `tool_result` head leaves the invoke count unchanged. -/
theorem countInvokes_cons_result (t : Tool) (v : JSVal) (l : List StreamEvent) :
    countInvokes (.tool_result t v :: l) = countInvokes l := by
  simp [countInvokes, List.filter]

/-- Helper: when every invocation resolves to a defined value, the ideal
event sequence holds exactly one `tool_invoke` per invocation record. -/
theorem countInvokes_idealEvents (tools : List Tool)
    (exec : String → Option String → InvokeOutcome) :
    ∀ funcs : List InvocationRecord,
      (∀ r ∈ funcs, resolvesDefinedB tools exec r = true) →
      countInvokes (idealEvents tools exec funcs) = funcs.length := by
  intro funcs
  induction funcs with
  | nil => intro _; rfl
  | cons r rest ih =>
    intro h
    have hr := h r (by simp)
    unfold resolvesDefinedB at hr
    cases hft : findTool tools r.tool_name with
    | none => rw [hft] at hr; simp at hr
    | some t =>
      simp only [hft] at hr
      cases hex : exec t.tool_name r.context with
      | error e => simp only [hex] at hr; simp at hr
      | data v =>
        rw [idealEvents, hft]
        simp only [hex]
        rw [countInvokes_cons_invoke, countInvokes_cons_result,
          ih (fun q hq => h q (by simp [hq]))]
        simp

/-- Helper: when every invocation resolves to a defined value, the streamed
tool phase completes and its events are the per-record
`tool_invoke`/`tool_result` pairs followed by the final `tool_results`. -/
theorem invokeLoopGo_defined (tools : List Tool)
    (exec : String → Option String → InvokeOutcome) :
    ∀ (funcs : List InvocationRecord) (events : List StreamEvent)
      (results : List (String × JSVal)) (fr : String),
      (∀ r ∈ funcs, resolvesDefinedB tools exec r = true) →
      ∃ out, invokeLoopGo tools exec funcs events results fr = .ok out ∧
        out.events = events ++ idealEvents tools exec funcs ++
          [.tool_results out.results out.messages] := by
  intro funcs
  induction funcs with
  | nil =>
    intro events results fr _
    refine ⟨_, rfl, ?_⟩
    simp [idealEvents]
  | cons r rest ih =>
    intro events results fr h
    have hr := h r (by simp)
    unfold resolvesDefinedB at hr
    cases hft : findTool tools r.tool_name with
    | none => rw [hft] at hr; simp at hr
    | some t =>
      simp only [hft] at hr
      cases hex : exec t.tool_name r.context with
      | error e => simp only [hex] at hr; simp at hr
      | data v =>
        simp only [hex] at hr
        have hv : ¬ v = JSVal.undefined := by simpa using hr
        obtain ⟨out, hout, hev⟩ := ih
          (events ++ [.tool_invoke t, .tool_result t v])
          (upsert results t.tool_name v)
          (fr ++ resultFragment t.tool_name v)
          (fun q hq => h q (by simp [hq]))
        refine ⟨out, ?_, ?_⟩
        · rw [invokeLoopGo, hft]
          simp only [hex]
          rw [if_neg hv]
          exact hout
        · rw [hev, idealEvents, hft]
          simp only [hex]
          simp [List.append_assoc]

/-- C1 (amended): for a streamed round whose parsed invocation records all
name registered tools and all resolve to defined values, the tool phase
completes, emits exactly one `tool_invoke` per parsed record, and its event
sequence is the per-record `tool_invoke` followed immediately by that
record's single `tool_result` (sequential execution), closed by one
`tool_results` event. -/
theorem invoke_events_alternate (tools : List Tool)
    (exec : String → Option String → InvokeOutcome)
    (funcs : List InvocationRecord)
    (h : ∀ r ∈ funcs, resolvesDefinedB tools exec r = true) :
    ∃ out, invokeLoop tools exec funcs = .ok out ∧
      out.events = idealEvents tools exec funcs ++
        [.tool_results out.results out.messages] ∧
      countInvokes out.events = funcs.length := by
  obtain ⟨out, hout, hev⟩ := invokeLoopGo_defined tools exec funcs [] [] frHeader h
  refine ⟨out, hout, by simpa using hev, ?_⟩
  rw [hev]
  rw [countInvokes_append, countInvokes_append,
    countInvokes_idealEvents tools exec funcs h]
  simp [countInvokes, List.filter]

/-- Witness for C1 (amended): two invocations, both resolving to defined
values. -/
theorem invoke_events_alternate_witness :
    ∃ out, invokeLoop [toolAlpha, toolBeta] execEcho [recAlpha, recBeta] = .ok out ∧
      out.events = idealEvents [toolAlpha, toolBeta] execEcho [recAlpha, recBeta] ++
        [.tool_results out.results out.messages] ∧
      countInvokes out.events = ([recAlpha, recBeta] : List InvocationRecord).length :=
  invoke_events_alternate [toolAlpha, toolBeta] execEcho [recAlpha, recBeta] (by decide)

/-- Helper: the parsed buffered container is never a JavaScript array (the
dead `Array.isArray(calls)` branch). -/
theorem jIsArray_fxpBuffered (inner : String) :
    jIsArray (fxpFunctionCallsBuffered inner) = false := by
  unfold fxpFunctionCallsBuffered
  split <;> rfl

/-- Helper: mapping the invoke-to-record step over a one-element
`invokeArray` yields a one-element list whenever it succeeds. -/
theorem mapM_namedCall_singleton (iv : JVal) (l : List NamedCall)
    (h : exceptMapList namedCallOfInvoke [iv] = .ok l) :
    l.length = 1 := by
  cases hc : namedCallOfInvoke iv with
  | error e => simp [exceptMapList, hc] at h
  | ok c =>
    simp [exceptMapList, hc] at h
    simp [← h]

/-- Helper: the buffered parse step always yields exactly one record when
it succeeds (for any well-formed or ill-formed text alike), which is why
the `functions.length > 0` else-branch of the loop is unreachable. -/
theorem parseBufferedBlock_singleton (text : String) (l : List NamedCall)
    (h : parseBufferedBlock text = .ok l) : l.length = 1 := by
  simp only [parseBufferedBlock] at h
  rw [jIsArray_fxpBuffered] at h
  simp only [Bool.false_eq_true, if_false] at h
  exact mapM_namedCall_singleton _ _ h

/-- Helper: a round in which every queue entry is found and validates and
succeeds executes the entire queue in order. -/
theorem runRoundGo_allok (tools : List Tool) (behave : NamedCall → RoundOutcome) :
    ∀ (funcs : List NamedCall) (fr : String) (ex : List NamedCall),
      (∀ f ∈ funcs, (findTool tools f.name).isSome) →
      (∀ f, ∃ v, behave f = .ok v) →
      ∃ block, runRoundGo tools behave funcs fr ex = .ok (block, ex ++ funcs) := by
  intro funcs
  induction funcs with
  | nil =>
    intro fr ex _ _
    exact ⟨fr ++ frFooter, by simp [runRoundGo]⟩
  | cons f fs ih =>
    intro fr ex hfound hok
    obtain ⟨t, ht⟩ := Option.isSome_iff_exists.mp (hfound f (by simp))
    obtain ⟨v, hv⟩ := hok f
    obtain ⟨block, hb⟩ := ih (fr ++ resultFragment (optTemplate f.name) v) (ex ++ [f])
      (fun g hg => hfound g (by simp [hg])) hok
    refine ⟨block, ?_⟩
    rw [runRoundGo, ht]
    simp only [hv]
    rw [hb]
    simp

/-- Helper: under all-successful behaviour, the executed-invocations trace
of the buffered loop is, for each round, the whole accumulated queue — the
concatenation of every block parsed so far in order. -/
theorem turnLoopGo_trace (tools : List Tool) (behave : Nat → NamedCall → RoundOutcome)
    (hok : ∀ k f, ∃ v, behave k f = RoundOutcome.ok v) :
    ∀ (replies : List String) (text : String) (functions : List NamedCall)
      (first : Bool) (messages : List Message) (k : Nat)
      (trace : List (List NamedCall)) (out : LoopOut),
      (∀ f ∈ functions ++ (parsedSeq replies text).flatten, (findTool tools f.name).isSome) →
      turnLoopGo parseBufferedBlock (fun k2 funcs => runRound tools (behave k2) funcs)
        replies text functions first messages k trace = .ok out →
      out.trace = trace ++ (List.range (parsedSeq replies text).length).map
        (fun j => functions ++ ((parsedSeq replies text).take (j + 1)).flatten) := by
  intro replies
  induction replies with
  | nil =>
    intro text functions first messages k trace out hfound hrun
    rw [turnLoopGo] at hrun
    rw [parsedSeq] at hfound ⊢
    cases hmark : includesSub text fcOpen with
    | false =>
      simp only [hmark, Bool.false_eq_true, if_false] at hrun ⊢
      simp only [Except.ok.injEq] at hrun
      rw [← hrun]
      simp
    | true =>
      simp only [hmark, if_true] at hrun hfound ⊢
      cases hp : parseBufferedBlock text with
      | error e =>
        simp only [hp] at hrun
        cases hrun
      | ok parsed =>
        simp only [hp] at hrun hfound ⊢
        have hl := parseBufferedBlock_singleton text parsed hp
        have hpne : parsed ≠ [] := by
          intro hnil
          rw [hnil] at hl
          simp at hl
        have hne : (functions ++ parsed).isEmpty = false := by
          cases hfp : functions ++ parsed with
          | nil => exact absurd (List.append_eq_nil.mp hfp).2 hpne
          | cons a as => rfl
        simp only [hne, Bool.false_eq_true, if_false] at hrun
        have hfound2 : ∀ f ∈ functions ++ parsed, (findTool tools f.name).isSome := by
          intro f hf
          exact hfound f (by simpa using hf)
        obtain ⟨block, hb⟩ := runRoundGo_allok tools (behave k) (functions ++ parsed)
          frHeader [] hfound2 (hok k)
        have hb2 : runRound tools (behave k) (functions ++ parsed) =
            .ok (block, functions ++ parsed) := by
          rw [runRound, hb]
          simp
        simp only [hb2] at hrun
        simp only [Except.ok.injEq] at hrun
        rw [← hrun]
        simp
  | cons t rest ih =>
    intro text functions first messages k trace out hfound hrun
    rw [turnLoopGo] at hrun
    rw [parsedSeq] at hfound ⊢
    cases hmark : includesSub text fcOpen with
    | false =>
      simp only [hmark, Bool.false_eq_true, if_false] at hrun ⊢
      simp only [Except.ok.injEq] at hrun
      rw [← hrun]
      simp
    | true =>
      simp only [hmark, if_true] at hrun hfound ⊢
      cases hp : parseBufferedBlock text with
      | error e =>
        simp only [hp] at hrun
        cases hrun
      | ok parsed =>
        simp only [hp] at hrun hfound ⊢
        have hl := parseBufferedBlock_singleton text parsed hp
        have hpne : parsed ≠ [] := by
          intro hnil
          rw [hnil] at hl
          simp at hl
        have hne : (functions ++ parsed).isEmpty = false := by
          cases hfp : functions ++ parsed with
          | nil => exact absurd (List.append_eq_nil.mp hfp).2 hpne
          | cons a as => rfl
        simp only [hne, Bool.false_eq_true, if_false] at hrun
        have hfound2 : ∀ f ∈ functions ++ parsed, (findTool tools f.name).isSome := by
          intro f hf
          apply hfound
          rcases List.mem_append.mp hf with h1 | h2
          · simp [h1]
          · simp [h2]
        obtain ⟨block, hb⟩ := runRoundGo_allok tools (behave k) (functions ++ parsed)
          frHeader [] hfound2 (hok k)
        have hb2 : runRound tools (behave k) (functions ++ parsed) =
            .ok (block, functions ++ parsed) := by
          rw [runRound, hb]
          simp
        simp only [hb2] at hrun
        have hfound3 : ∀ f ∈ (functions ++ parsed) ++ (parsedSeq rest t).flatten,
            (findTool tools f.name).isSome := by
          intro f hf
          apply hfound
          rcases List.mem_append.mp hf with h1 | h2
          · rcases List.mem_append.mp h1 with h3 | h4
            · simp [h3]
            · simp [h4]
          · simp [h2]
        have := ih t (functions ++ parsed) false
          (messages ++
            (if first then [] else [{ role := "assistant", content := text : Message }]) ++
            [{ role := "user", content := block : Message }])
          (k + 1) (trace ++ [functions ++ parsed]) out hfound3 hrun
        rw [this]
        simp only [List.length_cons, List.range_succ_eq_map, List.map_cons,
          List.map_map, List.take_succ_cons, List.flatten_cons]
        simp [Function.comp, List.append_assoc, Nat.succ_eq_add_one]

/-- C5 (amended): in the buffered turn loop the parsed invocations
accumulate in a single never-cleared queue, so — provided every parsed
invocation names a registered tool and every validation/execution in every
round succeeds — the invocations executed in round `j` are exactly the
concatenation of all blocks parsed in rounds `0..j`, in parse order: every
invocation of an earlier round is looked up and executed again, before the
newly parsed ones. -/
theorem functions_accumulate (tools : List Tool)
    (behave : Nat → NamedCall → RoundOutcome) (init : List Message)
    (r0 : String) (rest : List String) (out : LoopOut)
    (hok : ∀ k f, ∃ v, behave k f = RoundOutcome.ok v)
    (hfound : ∀ f ∈ (parsedSeq rest r0).flatten, (findTool tools f.name).isSome)
    (hrun : runWithToolsModel tools behave init (r0 :: rest) = .ok out) :
    out.trace = (List.range (parsedSeq rest r0).length).map
      (fun j => ((parsedSeq rest r0).take (j + 1)).flatten) := by
  rw [runWithToolsModel] at hrun
  have h2 : ∀ f ∈ ([] : List NamedCall) ++ (parsedSeq rest r0).flatten,
      (findTool tools f.name).isSome := by
    simpa using hfound
  have h3 := turnLoopGo_trace tools behave hok _ _ _ _ _ _ _ _ h2 hrun
  simpa using h3

/-- Witness for C5 (amended): a two-round all-successful run — round 1
re-executes the round-0 invocation before the newly parsed one. -/
theorem functions_accumulate_witness :
    ∃ out, runWithToolsModel [toolAlpha, toolBeta] behaveAllOkRounds []
        [bufferedReply ("alpha"), bufferedReply ("beta")] = .ok out ∧
      out.trace = (List.range
          (parsedSeq [bufferedReply ("beta")] (bufferedReply ("alpha"))).length).map
        (fun j => ((parsedSeq [bufferedReply ("beta")]
          (bufferedReply ("alpha"))).take (j + 1)).flatten) := by
  have hok2 : (runWithToolsModel [toolAlpha, toolBeta] behaveAllOkRounds []
      [bufferedReply ("alpha"), bufferedReply ("beta")]).isOk = true := by decide
  cases hr : runWithToolsModel [toolAlpha, toolBeta] behaveAllOkRounds []
      [bufferedReply ("alpha"), bufferedReply ("beta")] with
  | error e =>
    rw [hr] at hok2
    simp [Except.isOk, Except.toBool] at hok2
  | ok out =>
    exact ⟨out, rfl, functions_accumulate [toolAlpha, toolBeta] behaveAllOkRounds []
      (bufferedReply ("alpha")) [bufferedReply ("beta")] out
      (fun k f => ⟨.str ("r"), rfl⟩) (by decide) hr⟩

/-- C5 counterexample: in a three-round run in which the round-0
invocation's function throws in round 2, round 2 executes only that
invocation — the invocation parsed in round 1, although executed in round 1,
is neither looked up nor executed again in round 2. -/
theorem functions_accumulate_counterexample :
    traceOf (runWithToolsModel [toolAlpha, toolBeta] behaveFailAlphaRound2 []
      [bufferedReply ("alpha"), bufferedReply ("beta"), bufferedReply ("gamma")]) =
      [[callAlpha], [callAlpha, callBeta], [callAlpha]] ∧
    callBeta ∈ (traceOf (runWithToolsModel [toolAlpha, toolBeta]
      behaveFailAlphaRound2 []
      [bufferedReply ("alpha"), bufferedReply ("beta"), bufferedReply ("gamma")])).getD 1 [] ∧
    callBeta ∉ (traceOf (runWithToolsModel [toolAlpha, toolBeta]
      behaveFailAlphaRound2 []
      [bufferedReply ("alpha"), bufferedReply ("beta"), bufferedReply ("gamma")])).getD 2 [] :=
  ⟨by decide, by decide, by decide⟩

end AnthropicSdkTools
